import Mathlib

/-!
Verification of the whale_mt analytics dashboard core logic.

Shallow embedding of the selection-set bookkeeping, the cross-view wallet
aggregator, the export-to-file serializer and the per-view fetch lifecycle
found in `src/App.tsx` (App and LivePositions components) and
`src/TradeStatistics.tsx` (TradeStatistics, TopTraders and WhaleDetection
components).

Modelling conventions:
- JS numbers are modelled as rationals (`ℚ`); trade counts and epoch
  timestamps as `Nat`.
- A JS `Set<string>` is modelled as a duplicate-free `List String` in
  insertion order: `has` is membership, `add` appends when absent,
  `delete` filters, `new Set(array)` deduplicates keeping the first
  occurrence.
- The `onSelectWallet` callback (the only externally observable side
  effect of the selection stores) is modelled by accumulating the
  arguments of its invocations, in order, in a `notified` list.
- Asynchronous fetches are modelled by passing the settled outcome of the
  awaited call as an `Except String` value to the state-transition
  function that the component runs around the `await`; the `setLoading(true)`
  performed synchronously before the fetch is modelled by a separate
  `...Start` function.
-/

namespace WhaleMT

/-- Entry of the cross-view aggregate list (`SelectedWallet` in App.tsx). -/
structure SelectedWallet where
  address : String
  source : String
  deriving DecidableEq, Repr

/-- Leaderboard record; fields as used by TopTraders (types file is imported
from outside `src/`, the field shapes are taken from their uses in the
components). -/
structure Trader where
  address : String
  pnl : ℚ
  volume : ℚ
  pnlRatio : ℚ
  lastActive : Nat
  deriving DecidableEq, Repr

/-- Whale record; fields as used by WhaleDetection. -/
structure Whale where
  address : String
  balance : ℚ
  pnl : ℚ
  winRate : ℚ
  volume : ℚ
  deriving DecidableEq, Repr

/-- Per-trader statistics record (`ExtendedTradeStats` in TradeStatistics.tsx);
fields as used by the component. -/
structure ExtendedTradeStats where
  address : String
  totalTrades : Nat
  totalVolume : ℚ
  winRate : ℚ
  totalPnl : ℚ
  avgTradeSize : ℚ
  lastTradeTime : Nat
  trader : Option Trader
  deriving DecidableEq, Repr

/-- Live position record; fields as used by LivePositions. -/
structure LivePosition where
  id : Nat
  address : String
  status : String
  pnl : ℚ
  openedAt : Nat
  deriving DecidableEq, Repr

/-- Model of `Set.add` on a JS `Set<string>`: append when absent. -/
def setAdd (s : List String) (a : String) : List String :=
  if a ∈ s then s else s ++ [a]

/-- Model of `Set.delete` on a JS `Set<string>`. -/
def setDelete (s : List String) (a : String) : List String :=
  s.filter (fun x => decide (x ≠ a))

/-- Model of `new Set(l)`: deduplicate keeping first occurrences. -/
def setOfList (l : List String) : List String :=
  l.foldl setAdd []

/-- State of one view's selection store: the selected set together with the
log of `onSelectWallet` invocations issued so far. -/
structure SelState where
  selected : List String
  notified : List String
  deriving DecidableEq, Repr

/-- Embedding of `toggleSelectTrader` (TradeStatistics.tsx, TopTraders and
TradeStatistics components; identical code as `toggleSelectTrader` in
LivePositions and `toggleSelectWhale` in WhaleDetection): copy the set;
if the address is present delete it, otherwise add it and invoke
`onSelectWallet(address)`. -/
def toggleSelectTrader (st : SelState) (address : String) : SelState :=
  if address ∈ st.selected then
    ⟨setDelete st.selected address, st.notified⟩
  else
    ⟨setAdd st.selected address, st.notified ++ [address]⟩

/-- Embedding of `selectAllVisible` (TradeStatistics.tsx): for each item of
the current tab's data, add its address to the copied set and invoke
`onSelectWallet(item.address)` unconditionally. -/
def selectAllVisible (st : SelState) (currentData : List ExtendedTradeStats) : SelState :=
  currentData.foldl
    (fun acc item => ⟨setAdd acc.selected item.address, acc.notified ++ [item.address]⟩) st

namespace TopTraders

/-- Embedding of `selectAll` (TopTraders component): replace the selected set
by `new Set(traders.map(t => t.address))` and invoke `onSelectWallet` for
every trader in list order. -/
def selectAll (st : SelState) (traders : List Trader) : SelState :=
  ⟨setOfList (traders.map (fun t => t.address)),
   st.notified ++ traders.map (fun t => t.address)⟩

end TopTraders

namespace WhaleDetection

/-- Embedding of `selectAll` (WhaleDetection component): replace the selected
set by `new Set(whales.map(w => w.address))` and invoke `onSelectWallet` for
every whale in list order. -/
def selectAll (st : SelState) (whales : List Whale) : SelState :=
  ⟨setOfList (whales.map (fun w => w.address)),
   st.notified ++ whales.map (fun w => w.address)⟩

end WhaleDetection

/-! Basic lemmas about the JS-Set model. -/

lemma mem_setAdd (s : List String) (a b : String) :
    b ∈ setAdd s a ↔ b ∈ s ∨ b = a := by
  by_cases h : a ∈ s
  · simp only [setAdd, if_pos h]
    constructor
    · exact Or.inl
    · rintro (hb | rfl)
      · exact hb
      · exact h
  · simp [setAdd, if_neg h]

lemma mem_setDelete (s : List String) (a b : String) :
    b ∈ setDelete s a ↔ b ∈ s ∧ b ≠ a := by
  simp [setDelete]

lemma mem_foldl_setAdd (l : List String) (init : List String) (a : String) :
    a ∈ l.foldl setAdd init ↔ a ∈ init ∨ a ∈ l := by
  induction l generalizing init with
  | nil => simp
  | cons x xs ih =>
    rw [List.foldl_cons, ih, mem_setAdd]
    simp only [List.mem_cons]
    tauto

lemma mem_setOfList (l : List String) (a : String) :
    a ∈ setOfList l ↔ a ∈ l := by
  simp [setOfList, mem_foldl_setAdd]

/-! Behaviour of a single toggle. -/

lemma toggle_selected_self (st : SelState) (a : String) :
    a ∈ (toggleSelectTrader st a).selected ↔ a ∉ st.selected := by
  by_cases h : a ∈ st.selected <;>
    simp [toggleSelectTrader, h, mem_setDelete, mem_setAdd]

lemma toggle_selected_other (st : SelState) (a b : String) (hba : b ≠ a) :
    b ∈ (toggleSelectTrader st a).selected ↔ b ∈ st.selected := by
  by_cases h : a ∈ st.selected <;>
    simp [toggleSelectTrader, h, mem_setDelete, mem_setAdd, hba]

lemma toggle_notified (st : SelState) (a : String) :
    (toggleSelectTrader st a).notified =
      if a ∈ st.selected then st.notified else st.notified ++ [a] := by
  by_cases h : a ∈ st.selected <;> simp [toggleSelectTrader, h]

/-! Wallet Aggregator (App component). -/

/-- Model of JS `String.prototype.toLowerCase`, applied per character. -/
def toLowerCase (s : String) : String :=
  ⟨s.data.map Char.toLower⟩

/-- Embedding of `handleSelectWallet` (App.tsx): look for an existing entry
whose address matches case-insensitively; when none is found append the new
`{address, source}` pair, otherwise leave the list unchanged. -/
def handleSelectWallet (selectedWallets : List SelectedWallet)
    (address source : String) : List SelectedWallet :=
  if (selectedWallets.find?
      (fun w => toLowerCase w.address == toLowerCase address)).isSome then
    selectedWallets
  else
    selectedWallets ++ [⟨address, source⟩]

/-- Embedding of `removeWallet` (App.tsx): drop all case-insensitive
matches. -/
def removeWallet (selectedWallets : List SelectedWallet)
    (address : String) : List SelectedWallet :=
  selectedWallets.filter (fun w => toLowerCase w.address != toLowerCase address)

/-- Result of a triggered file download: content, filename and MIME type of
the produced blob. -/
structure ExportFile where
  content : String
  filename : String
  mimeType : String
  deriving DecidableEq, Repr

/-- JSON string escaping as performed by `JSON.stringify` on the common
characters. -/
def jsonEscapeChar (c : Char) : String :=
  if c = '"' then "\\\""
  else if c = '\\' then "\\\\"
  else if c = '\n' then "\\n"
  else if c = '\t' then "\\t"
  else if c = '\r' then "\\r"
  else String.singleton c

/-- Escape a string for inclusion in a JSON document. -/
def jsonEscape (s : String) : String :=
  String.join (s.data.map jsonEscapeChar)

/-- One element of `JSON.stringify(selectedWallets, null, 2)`: an object with
the `address` and `source` keys, pretty-printed at indent width 2. -/
def jsonWalletObject (w : SelectedWallet) : String :=
  "  \x7b\n    \"address\": \"" ++ jsonEscape w.address ++
    "\",\n    \"source\": \"" ++ jsonEscape w.source ++ "\"\n  \x7d"

/-- Embedding of `JSON.stringify(selectedWallets, null, 2)` for the list of
selected wallets. -/
def jsonStringifyWallets (ws : List SelectedWallet) : String :=
  match ws with
  | [] => "[]"
  | _ => "[\n" ++ String.intercalate ",\n" (ws.map jsonWalletObject) ++ "\n]"

/-- CSV body built by the `csv` branch of `saveWalletsToFile`: a header row
followed by one `address,source,timestamp` row per wallet. The code evaluates
`new Date().toISOString()` per row at export time; the export-time timestamp
is the `exportTime` parameter here. -/
def csvContent (ws : List SelectedWallet) (exportTime : String) : String :=
  "Address,Source,Selected At\n" ++
    String.join (ws.map (fun w =>
      w.address ++ "," ++ w.source ++ "," ++ exportTime ++ "\n"))

/-- Embedding of `saveWalletsToFile` (App.tsx). The TypeScript parameter type
narrows `format` to the literals "txt" | "csv" | "json"; the runtime dispatch
compares the string against "json" and "csv" and sends everything else to the
final `else` (txt) branch, which is reproduced here over plain strings.
Returns the produced download, or `none` when the empty-list guard fires.
`now` is `Date.now()` (epoch milliseconds) at export time. -/
def saveWalletsToFile (selectedWallets : List SelectedWallet)
    (format : String) (now : Nat) (exportTime : String) : Option ExportFile :=
  if selectedWallets.length = 0 then none
  else if format = "json" then
    some ⟨jsonStringifyWallets selectedWallets,
      "hyperliquid_wallets_" ++ toString now ++ ".json", "application/json"⟩
  else if format = "csv" then
    some ⟨csvContent selectedWallets exportTime,
      "hyperliquid_wallets_" ++ toString now ++ ".csv", "text/csv"⟩
  else
    some ⟨String.intercalate "\n" (selectedWallets.map (fun w => w.address)),
      "wallet_addresses_" ++ toString now ++ ".txt", "text/plain"⟩

/-! Refresh lifecycle of the four views. Each `load...` function is the
settled state transition of one fetch attempt: it receives the state at the
time the fetch was issued and the settled outcome of the awaited provider
call(s), and produces the state after the `try/catch/finally` completes.
The `...Start` functions are the synchronous part executed before the
`await`. -/

namespace TopTraders

/-- Component state of TopTraders touched by `loadTraders`. -/
structure TopTradersState where
  traders : List Trader
  loading : Bool
  error : Option String
  deriving DecidableEq, Repr

/-- Filter dropdown value of TopTraders. -/
inductive FilterType where
  | all
  | profitable
  | volume
  deriving DecidableEq, Repr

/-- Sort dropdown value of TopTraders. -/
inductive SortKey where
  | pnl
  | volume
  | pnlRatio
  deriving DecidableEq, Repr

/-- Numeric key selected by the sort comparator of `loadTraders`. -/
def sortKeyVal (k : SortKey) (t : Trader) : ℚ :=
  match k with
  | .pnl => t.pnl
  | .volume => t.volume
  | .pnlRatio => t.pnlRatio

/-- Synchronous start of `loadTraders`: `setLoading(true); setError(null)`. -/
def loadTradersStart (st : TopTradersState) : TopTradersState :=
  ⟨st.traders, true, none⟩

/-- Embedding of `loadTraders` (TopTraders component), settled transition.
On success the fetched leaderboard is filtered by the filter type, filtered
by the minimum PnL, sorted descending by the chosen key (JS `sort` with a
subtraction comparator; stable) and truncated to `maxResults`; the error is
left cleared. On rejection the message "Error loading traders data" is
stored, the previous traders are kept, and `finally` clears `loading`. -/
def loadTraders (st : TopTradersState) (filterType : FilterType)
    (sortBy : SortKey) (minPnl : ℚ) (maxResults : Nat)
    (fetch : Except String (List Trader)) : TopTradersState :=
  match fetch with
  | .ok data =>
    let f1 := match filterType with
      | .all => data
      | .profitable => data.filter (fun t => decide (0 < t.pnl))
      | .volume => data.filter (fun t => decide (1000000 < t.volume))
    let f2 := f1.filter (fun t => decide (minPnl ≤ t.pnl))
    let sorted := f2.mergeSort
      (fun a b => decide (sortKeyVal sortBy b ≤ sortKeyVal sortBy a))
    ⟨sorted.take maxResults, false, none⟩
  | .error _ => ⟨st.traders, false, some "Error loading traders data"⟩

end TopTraders

namespace WhaleDetection

/-- Component state of WhaleDetection touched by `loadWhales`. -/
structure WhalesState where
  whales : List Whale
  loading : Bool
  error : Option String
  deriving DecidableEq, Repr

/-- Synchronous start of `loadWhales`: `setLoading(true); setError(null)`. -/
def loadWhalesStart (st : WhalesState) : WhalesState :=
  ⟨st.whales, true, none⟩

/-- Embedding of `loadWhales` (WhaleDetection component), settled transition:
on success store the fetched whales with the error cleared; on rejection
store the message "Error loading whale data" and keep the previous whales;
`finally` clears `loading`. -/
def loadWhales (st : WhalesState)
    (fetch : Except String (List Whale)) : WhalesState :=
  match fetch with
  | .ok data => ⟨data, false, none⟩
  | .error _ => ⟨st.whales, false, some "Error loading whale data"⟩

end WhaleDetection

namespace TradeStatistics

/-- Component state of TradeStatistics touched by `loadData`. The `Map` of
per-address stats is modelled as an association list in insertion order. -/
structure TradeStatsState where
  tradeStats : List (String × ExtendedTradeStats)
  loading : Bool
  deriving DecidableEq, Repr

/-- Synchronous start of `loadData`: `setLoading(true)`. -/
def loadDataStart (st : TradeStatsState) : TradeStatsState :=
  ⟨st.tradeStats, true⟩

/-- Embedding of `loadData` (TradeStatistics component), settled transition.
The `try` block awaits `fetchLeaderboard` and then `fetchUserTrades` per
address while building `statsMap`; `fetch` is the settled outcome of that
whole block (the built map, or the first rejection, which lands in the same
`catch`). On success the map is stored; on rejection the `catch` only calls
`console.error` — no component state other than `loading` (cleared by
`finally`) changes, and the component has no error state at all. -/
def loadData (st : TradeStatsState)
    (fetch : Except String (List (String × ExtendedTradeStats))) :
    TradeStatsState :=
  match fetch with
  | .ok m => ⟨m, false⟩
  | .error _ => ⟨st.tradeStats, false⟩

/-- Embedding of the `sortedByWinRate` derived list (TradeStatistics.tsx):
`Array.from(tradeStats.values()).filter(s => s.totalTrades >= 10)
.sort((a, b) => b.winRate - a.winRate).slice(0, 20)`. The input is the map's
value list in insertion order; JS `sort` with a subtraction comparator is a
stable descending sort. -/
def sortedByWinRate (tradeStats : List ExtendedTradeStats) :
    List ExtendedTradeStats :=
  ((tradeStats.filter (fun s => decide (10 ≤ s.totalTrades))).mergeSort
    (fun a b => decide (b.winRate ≤ a.winRate))).take 20

end TradeStatistics

namespace LivePositions

/-- Component state of LivePositions touched by `loadPositions`. `lastUpdate`
is an epoch timestamp. The component has no error state. -/
structure LivePositionsState where
  positions : List LivePosition
  loading : Bool
  lastUpdate : Nat
  deriving DecidableEq, Repr

/-- Synchronous start of `loadPositions`: `setLoading(true)`. -/
def loadPositionsStart (st : LivePositionsState) : LivePositionsState :=
  ⟨st.positions, true, st.lastUpdate⟩

/-- Embedding of `loadPositions` (LivePositions component), settled
transition. The `try` block awaits `fetchLeaderboard(50)` and then
`fetchLivePositions` on the returned addresses; `fetch` is the settled
outcome of the block (a rejection of either call lands in the same `catch`).
On success the positions are stored and `lastUpdate` is set to the current
time `now`; on rejection the `catch` only calls `console.error` — nothing
but `loading` (cleared by `finally`) changes, and the component has no error
state at all. -/
def loadPositions (st : LivePositionsState)
    (fetch : Except String (List LivePosition)) (now : Nat) :
    LivePositionsState :=
  match fetch with
  | .ok ps => ⟨ps, false, now⟩
  | .error _ => ⟨st.positions, false, st.lastUpdate⟩

/-- Error message displayed by the LivePositions view. The component defines
no error state and its markup renders no failure message; a fetch failure is
only logged to the browser console, so the user-visible error of this view
is always absent. -/
def errorMessage (_ : LivePositionsState) : Option String :=
  none

end LivePositions

/-! Helpers for concrete inputs used in examples. -/

/-- Stats record with the given address, win rate and trade count; the other
fields are zeroed. -/
def mkStats (addr : String) (winRate : ℚ) (totalTrades : Nat) :
    ExtendedTradeStats :=
  ⟨addr, totalTrades, 0, winRate, 0, 0, 0, none⟩

/-- Trader record with the given address and zeroed numeric fields. -/
def mkTrader (addr : String) : Trader :=
  ⟨addr, 0, 0, 0, 0⟩

/-- Position record with the given address and zeroed fields. -/
def mkPosition (addr : String) : LivePosition :=
  ⟨0, addr, "open", 0, 0⟩

/-! Claim theorems. -/

/-- C1: the Wallet Aggregator `add` (handleSelectWallet) deduplicates
case-insensitively with first-selection-wins: when some existing entry's
address matches the given address case-insensitively the list is unchanged;
otherwise the new pair is appended at the end. In particular adding "0xAB"
from "x" and then "0xab" from "y" to the empty list yields exactly one entry
with address "0xAB" and source "x". -/
theorem claim1_handleSelectWallet (ws : List SelectedWallet)
    (address source : String) :
    ((∃ w ∈ ws, toLowerCase w.address = toLowerCase address) →
      handleSelectWallet ws address source = ws) ∧
    ((∀ w ∈ ws, toLowerCase w.address ≠ toLowerCase address) →
      handleSelectWallet ws address source = ws ++ [⟨address, source⟩]) ∧
    handleSelectWallet (handleSelectWallet [] "0xAB" "x") "0xab" "y"
      = [⟨"0xAB", "x"⟩] := by
  refine ⟨?_, ?_, by decide⟩
  · rintro ⟨w, hw, he⟩
    have hsome : (ws.find?
        (fun w => toLowerCase w.address == toLowerCase address)).isSome := by
      rw [List.find?_isSome]
      exact ⟨w, hw, by simp [he]⟩
    simp [handleSelectWallet, hsome]
  · intro h
    have hnone : ¬ (ws.find?
        (fun w => toLowerCase w.address == toLowerCase address)).isSome := by
      rw [List.find?_isSome]
      rintro ⟨w, hw, hp⟩
      exact h w hw (by simpa using hp)
    simp [handleSelectWallet, hnone]

/-- Witness for C1 at concrete inputs: a case-insensitive duplicate leaves
the list unchanged, and an address absent from the list is appended. -/
theorem claim1_witness :
    handleSelectWallet [⟨"0xAB", "x"⟩] "0xab" "y" = [⟨"0xAB", "x"⟩] ∧
    handleSelectWallet [] "0xAB" "x" = [⟨"0xAB", "x"⟩] := by
  constructor
  · exact (claim1_handleSelectWallet [⟨"0xAB", "x"⟩] "0xab" "y").1
      ⟨⟨"0xAB", "x"⟩, by simp, by decide⟩
  · exact (claim1_handleSelectWallet [] "0xAB" "x").2.1 (by simp)
/-- Structure of `selectAllVisible`: the selected set is the fold of
`setAdd` over the item addresses and one notification is issued per item,
in order. -/
lemma selectAllVisible_eq (st : SelState) (items : List ExtendedTradeStats) :
    selectAllVisible st items =
      ⟨(items.map (fun i => i.address)).foldl setAdd st.selected,
       st.notified ++ items.map (fun i => i.address)⟩ := by
  induction items generalizing st with
  | nil => simp [selectAllVisible]
  | cons i is ih =>
    show selectAllVisible ⟨setAdd st.selected i.address,
      st.notified ++ [i.address]⟩ is = _
    rw [ih]
    simp

/-- C2 counterexample: `selectAllVisible` over items with addresses
[A, B, A, C] starting from the empty selection notifies [A, B, A, C] — the
duplicate A is re-notified — while the claim demands notifications
[A, B, C], exactly once per newly-added address. -/
theorem claim2_counterexample :
    (selectAllVisible ⟨[], []⟩
      [mkStats "A" 0 0, mkStats "B" 0 0, mkStats "A" 0 0,
       mkStats "C" 0 0]).notified = ["A", "B", "A", "C"] ∧
    (["A", "B", "A", "C"] : List String) ≠ ["A", "B", "C"] := by
  constructor
  · rfl
  · decide

/-- C2 amended: the selection stores notify `onSelect` exactly once per item
of the input sequence, in the sequence's iteration order, regardless of
whether the item's address is already selected and including repeated
addresses — `selectAllVisible` (TradeStatistics) and the `selectAll` of
TopTraders and WhaleDetection all append one notification per input item. -/
theorem claim2_amended_notifications (stA stB stC : SelState)
    (items : List ExtendedTradeStats) (traders : List Trader)
    (whales : List Whale) :
    (selectAllVisible stA items).notified
        = stA.notified ++ items.map (fun i => i.address) ∧
    (TopTraders.selectAll stB traders).notified
        = stB.notified ++ traders.map (fun t => t.address) ∧
    (WhaleDetection.selectAll stC whales).notified
        = stC.notified ++ whales.map (fun w => w.address) := by
  refine ⟨?_, rfl, rfl⟩
  rw [selectAllVisible_eq]

/-- C3: starting from the empty per-view selection, after any finite sequence
of `toggleSelectTrader` calls an address is selected exactly when it was
toggled an odd number of times (case-sensitively, independently per
address), and the number of `onSelect` notifications for it equals the
number of its adding toggles — `(count + 1) / 2`, i.e. one notification at
each toggle that adds it and none at a toggle that removes it. -/
theorem claim3_toggle_parity (calls : List String) (a : String) :
    (a ∈ (calls.foldl toggleSelectTrader ⟨[], []⟩).selected
      ↔ Odd (calls.count a)) ∧
    (calls.foldl toggleSelectTrader ⟨[], []⟩).notified.count a
      = (calls.count a + 1) / 2 := by
  induction calls using List.reverseRecOn with
  | nil => simp [Nat.odd_iff]
  | append_singleton l c ih =>
    obtain ⟨ih1, ih2⟩ := ih
    rw [List.foldl_append]
    simp only [List.foldl_cons, List.foldl_nil]
    by_cases hca : c = a
    · subst hca
      have hcount : (l ++ [c]).count c = l.count c + 1 := by
        simp [List.count_append, List.count_singleton_self]
      constructor
      · have hnot := not_congr ih1
        rw [hcount, toggle_selected_self, hnot, Nat.odd_iff, Nat.odd_iff]
        omega
      · rw [toggle_notified, hcount]
        by_cases hm : c ∈ (l.foldl toggleSelectTrader ⟨[], []⟩).selected
        · have hodd : l.count c % 2 = 1 := Nat.odd_iff.mp (ih1.mp hm)
          rw [if_pos hm, ih2]
          omega
        · have heven : ¬ l.count c % 2 = 1 :=
            fun h => hm (ih1.mpr (Nat.odd_iff.mpr h))
          rw [if_neg hm, List.count_append, ih2, List.count_singleton_self]
          omega
    · have hac : a ≠ c := fun h => hca h.symm
      have hcount : (l ++ [c]).count a = l.count a := by
        simp [List.count_append, List.count_singleton, hca]
      constructor
      · rw [hcount, toggle_selected_other _ _ _ hac]
        exact ih1
      · rw [toggle_notified, hcount]
        by_cases hm : c ∈ (l.foldl toggleSelectTrader ⟨[], []⟩).selected
        · rw [if_pos hm, ih2]
        · rw [if_neg hm, List.count_append, ih2, List.count_singleton]
          simp [hca]

/-- C4 counterexample: in the LivePositions view a fetch rejection leaves
the state exactly as it was with only `loading` cleared — the resulting
state `⟨positions, false, lastUpdate⟩` stores no error message anywhere
(the component has no error state; the `catch` only calls `console.error`),
and the view's user-visible error is `none`, while the claim demands a
stored user-visible error message string for every view. -/
theorem claim4_counterexample :
    LivePositions.loadPositions ⟨[mkPosition "0xA"], true, 7⟩
        (Except.error "network down") 9
      = ⟨[mkPosition "0xA"], false, 7⟩ ∧
    LivePositions.errorMessage
      (LivePositions.loadPositions ⟨[mkPosition "0xA"], true, 7⟩
        (Except.error "network down") 9) = none := by
  exact ⟨rfl, rfl⟩

/-- C4 amended: a fetch rejection is caught in every view, the previously
fetched data is preserved and `loading` is cleared; a user-visible error
message is stored only by TopTraders ("Error loading traders data") and
WhaleDetection ("Error loading whale data") — TradeStatistics and
LivePositions catch the rejection, log to the console, and change nothing
but the `loading` flag. -/
theorem claim4_amended (stT : TopTraders.TopTradersState)
    (ft : TopTraders.FilterType) (sk : TopTraders.SortKey) (mp : ℚ)
    (mr : Nat) (stW : WhaleDetection.WhalesState)
    (stD : TradeStatistics.TradeStatsState)
    (stL : LivePositions.LivePositionsState) (msg : String) (now : Nat) :
    TopTraders.loadTraders stT ft sk mp mr (Except.error msg)
        = ⟨stT.traders, false, some "Error loading traders data"⟩ ∧
    WhaleDetection.loadWhales stW (Except.error msg)
        = ⟨stW.whales, false, some "Error loading whale data"⟩ ∧
    TradeStatistics.loadData stD (Except.error msg)
        = ⟨stD.tradeStats, false⟩ ∧
    LivePositions.loadPositions stL (Except.error msg) now
        = ⟨stL.positions, false, stL.lastUpdate⟩ := by
  exact ⟨rfl, rfl, rfl, rfl⟩

/-- C6: the txt export produces exactly the selected addresses in insertion
order with their original casing, newline-joined and without trailing
metadata (on entries with addresses "0x1" and "0x2" the content is exactly
"0x1\n0x2"), under the filename `wallet_addresses_<epoch-ms>.txt`, while the
csv and json exports use `hyperliquid_wallets_<epoch-ms>.<ext>`. -/
theorem claim6_export (ws : List SelectedWallet) (now : Nat) (t : String)
    (h : ws ≠ []) :
    saveWalletsToFile ws "txt" now t
        = some ⟨String.intercalate "\n" (ws.map (fun w => w.address)),
            "wallet_addresses_" ++ toString now ++ ".txt", "text/plain"⟩ ∧
    (∃ f, saveWalletsToFile ws "csv" now t = some f ∧
        f.filename = "hyperliquid_wallets_" ++ toString now ++ ".csv") ∧
    (∃ f, saveWalletsToFile ws "json" now t = some f ∧
        f.filename = "hyperliquid_wallets_" ++ toString now ++ ".json") ∧
    (∃ f, saveWalletsToFile [⟨"0x1", "a"⟩, ⟨"0x2", "b"⟩] "txt" now t
        = some f ∧ f.content = "0x1\n0x2") := by
  have h0 : ¬ ws.length = 0 := by
    simpa [List.length_eq_zero] using h
  refine ⟨?_, ?_, ?_, ?_⟩
  · simp [saveWalletsToFile, h0]
  · refine ⟨⟨csvContent ws t,
      "hyperliquid_wallets_" ++ toString now ++ ".csv", "text/csv"⟩, ?_, rfl⟩
    simp [saveWalletsToFile, h0]
  · refine ⟨⟨jsonStringifyWallets ws,
      "hyperliquid_wallets_" ++ toString now ++ ".json",
      "application/json"⟩, ?_, rfl⟩
    simp [saveWalletsToFile, h0]
  · refine ⟨⟨"0x1\n0x2",
      "wallet_addresses_" ++ toString now ++ ".txt", "text/plain"⟩, ?_, rfl⟩
    simp only [saveWalletsToFile]
    simp
    decide

/-- Witness for C6: the txt export of two concrete entries at epoch 0. -/
theorem claim6_witness :
    saveWalletsToFile [⟨"0x1", "a"⟩, ⟨"0x2", "b"⟩] "txt" 0 "T"
      = some ⟨"0x1\n0x2", "wallet_addresses_0.txt", "text/plain"⟩ := by
  have h := (claim6_export [⟨"0x1", "a"⟩, ⟨"0x2", "b"⟩] 0 "T"
    (by decide)).1
  exact h.trans (by decide)

/-- C7: exporting an empty aggregate list is a silent no-op for every
format: no file is produced, no content is built, and no error is raised
(the function is total and returns `none`; being pure, it also leaves the
aggregate list unchanged). -/
theorem claim7_empty_export (format : String) (now : Nat) (t : String) :
    saveWalletsToFile [] format now t = none := by
  simp [saveWalletsToFile]

/-- C8 counterexample: calling the export dispatch with the unsupported
format "xml" completes as a perfectly normal operation and produces the txt
export (the runtime `else` branch maps every format other than "json" and
"csv" to the txt behaviour), contrary to the claim that an unsupported
format is fatal/unreachable and not mapped to a supported format's
behaviour. -/
theorem claim8_counterexample :
    saveWalletsToFile [⟨"0x1", "x"⟩] "xml" 0 "T"
      = some ⟨"0x1", "wallet_addresses_0.txt", "text/plain"⟩ := by
  decide

/-- C8 amended: an unsupported format value is excluded statically by the
TypeScript parameter type `'txt' | 'csv' | 'json'`; the runtime dispatch has
no fatal/unreachable case — any format other than "json" and "csv" takes
the final `else` branch and behaves exactly like the txt export. -/
theorem claim8_amended (ws : List SelectedWallet) (format : String)
    (now : Nat) (t : String) (hj : format ≠ "json") (hc : format ≠ "csv") :
    saveWalletsToFile ws format now t = saveWalletsToFile ws "txt" now t := by
  simp [saveWalletsToFile, hj, hc]

/-- Witness for C8 amended: the unsupported format "xml" behaves as txt. -/
theorem claim8_witness :
    saveWalletsToFile [⟨"0x1", "x"⟩] "xml" 5 "T"
      = saveWalletsToFile [⟨"0x1", "x"⟩] "txt" 5 "T" :=
  claim8_amended [⟨"0x1", "x"⟩] "xml" 5 "T" (by decide) (by decide)

/-- C9: in every view the fetch lifecycle sets `loading` to true
synchronously before the bound fetch starts and clears it after the fetch
settles, on the success and on the failure outcome alike. -/
theorem claim9_loading_bracket (stD : TradeStatistics.TradeStatsState)
    (fD : Except String (List (String × ExtendedTradeStats)))
    (stL : LivePositions.LivePositionsState)
    (fL : Except String (List LivePosition)) (now : Nat)
    (stT : TopTraders.TopTradersState) (ft : TopTraders.FilterType)
    (sk : TopTraders.SortKey) (mp : ℚ) (mr : Nat)
    (fT : Except String (List Trader)) (stW : WhaleDetection.WhalesState)
    (fW : Except String (List Whale)) :
    (TradeStatistics.loadDataStart stD).loading = true ∧
    (TradeStatistics.loadData stD fD).loading = false ∧
    (LivePositions.loadPositionsStart stL).loading = true ∧
    (LivePositions.loadPositions stL fL now).loading = false ∧
    (TopTraders.loadTradersStart stT).loading = true ∧
    (TopTraders.loadTraders stT ft sk mp mr fT).loading = false ∧
    (WhaleDetection.loadWhalesStart stW).loading = true ∧
    (WhaleDetection.loadWhales stW fW).loading = false := by
  refine ⟨rfl, ?_, rfl, ?_, rfl, ?_, rfl, ?_⟩
  · cases fD <;> rfl
  · cases fL <;> rfl
  · cases fT <;> rfl
  · cases fW <;> rfl

/-- C5 counterexample: the TopTraders `selectAll` replaces the selection by
`new Set(traders.map(t => t.address))` — with "A" previously selected and a
fetched list containing only "B", the address "A" is no longer selected
after `selectAll`, while the claim demands that every previously selected
address stays selected (union semantics). -/
theorem claim5_counterexample :
    "A" ∈ (⟨["A"], []⟩ : SelState).selected ∧
    "A" ∉ (TopTraders.selectAll ⟨["A"], []⟩ [mkTrader "B"]).selected := by
  decide

/-- C5 amended: only `selectAllVisible` (TradeStatistics) computes the union
of the prior selection and the item addresses; the `selectAll` of TopTraders
and of WhaleDetection replace the selection with exactly the addresses of
the input list, dropping any previously selected address that is not in the
input. -/
theorem claim5_amended_membership (stA stB stC : SelState)
    (items : List ExtendedTradeStats) (traders : List Trader)
    (whales : List Whale) (a : String) :
    (a ∈ (selectAllVisible stA items).selected ↔
      a ∈ stA.selected ∨ a ∈ items.map (fun i => i.address)) ∧
    (a ∈ (TopTraders.selectAll stB traders).selected ↔
      a ∈ traders.map (fun t => t.address)) ∧
    (a ∈ (WhaleDetection.selectAll stC whales).selected ↔
      a ∈ whales.map (fun w => w.address)) := by
  refine ⟨?_, ?_, ?_⟩
  · rw [selectAllVisible_eq]
    exact mem_foldl_setAdd _ _ _
  · exact mem_setOfList _ _
  · exact mem_setOfList _ _

/-- C10: the "best win rate" ranking of TradeStatistics admits only
sufficiently active traders: every listed entry has at least 10 total
trades, the list holds at most 20 entries sorted by win rate descending,
every entry comes from the fetched collection, and whenever at most 20
entries pass the threshold the list is exactly (a permutation of) the
filtered collection. -/
theorem claim10_sortedByWinRate (stats : List ExtendedTradeStats) :
    (∀ s ∈ TradeStatistics.sortedByWinRate stats, 10 ≤ s.totalTrades) ∧
    (TradeStatistics.sortedByWinRate stats).length ≤ 20 ∧
    (TradeStatistics.sortedByWinRate stats).Pairwise
      (fun a b => b.winRate ≤ a.winRate) ∧
    (∀ s ∈ TradeStatistics.sortedByWinRate stats, s ∈ stats) ∧
    ((stats.filter (fun s => decide (10 ≤ s.totalTrades))).length ≤ 20 →
      (TradeStatistics.sortedByWinRate stats).Perm
        (stats.filter (fun s => decide (10 ≤ s.totalTrades)))) := by
  have hmem : ∀ s ∈ TradeStatistics.sortedByWinRate stats,
      s ∈ stats.filter (fun s => decide (10 ≤ s.totalTrades)) := by
    intro s hs
    exact List.mem_mergeSort.mp (List.take_subset 20 _ hs)
  refine ⟨?_, ?_, ?_, ?_, ?_⟩
  · intro s hs
    simpa using List.of_mem_filter (hmem s hs)
  · exact List.length_take_le _ _
  · have htrans : ∀ (a b c : ExtendedTradeStats),
        decide (b.winRate ≤ a.winRate) = true →
        decide (c.winRate ≤ b.winRate) = true →
        decide (c.winRate ≤ a.winRate) = true := by
      intro a b c hab hbc
      simp only [decide_eq_true_eq] at *
      exact le_trans hbc hab
    have htotal : ∀ (a b : ExtendedTradeStats),
        (decide (b.winRate ≤ a.winRate) ||
          decide (a.winRate ≤ b.winRate)) = true := by
      intro a b
      simp only [Bool.or_eq_true, decide_eq_true_eq]
      exact le_total _ _
    have hs := List.sorted_mergeSort htrans htotal
      (stats.filter (fun s => decide (10 ≤ s.totalTrades)))
    have hs2 := List.Pairwise.sublist (List.take_sublist 20 _) hs
    exact hs2.imp (fun h => by simpa using h)
  · intro s hs
    exact List.mem_of_mem_filter (hmem s hs)
  · intro hlen
    have h1 : ((stats.filter (fun s => decide (10 ≤ s.totalTrades))).mergeSort
        (fun a b => decide (b.winRate ≤ a.winRate))).length ≤ 20 := by
      rw [List.length_mergeSort]
      exact hlen
    rw [TradeStatistics.sortedByWinRate, List.take_of_length_le h1]
    exact List.mergeSort_perm _ _

/-- Witness for C10: on three concrete stats records (12, 5 and 30 trades)
at most 20 entries pass the threshold and the ranking is a permutation of
the filtered collection. -/
theorem claim10_witness :
    (([mkStats "A" 50 12, mkStats "B" 80 5, mkStats "C" 70 30].filter
        (fun s => decide (10 ≤ s.totalTrades))).length ≤ 20) ∧
    (TradeStatistics.sortedByWinRate
        [mkStats "A" 50 12, mkStats "B" 80 5, mkStats "C" 70 30]).Perm
      ([mkStats "A" 50 12, mkStats "B" 80 5, mkStats "C" 70 30].filter
        (fun s => decide (10 ≤ s.totalTrades))) := by
  refine ⟨by decide, ?_⟩
  exact (claim10_sortedByWinRate
    [mkStats "A" 50 12, mkStats "B" 80 5, mkStats "C" 70 30]).2.2.2.2
    (by decide)

end WhaleMT
